import Mathlib

/-!
Verification of the batch CSV loader (`import_csv_to_supabase.py`).

The loader reads CSV files in chunks, cleans each chunk
(`clean_dataframe`: column projection, NA normalisation, per-column
numeric coercion, NaN removal), converts rows to records, performs a
final record-level NaN/Infinity scrub, splits records into batches and
inserts each batch into a remote table, falling back to row-by-row
insertion when a bulk insert fails.

We embed the pipeline shallowly: pandas cells become an inductive
`Cell`, a pandas column becomes a `Col` carrying its dtype
(`object` vs numeric), a chunk becomes a `Df`, and the remote store
becomes an oracle `Store` saying which bulk/row inserts succeed.
-/

namespace CsvImport

/-- A scalar cell of a pandas column: Python `None` / pandas missing
marker, a string, float NaN, float ±Infinity, or a finite number. -/
inductive Cell where
  | null : Cell
  | str : String → Cell
  | nan : Cell
  | inf : Bool → Cell
  | num : ℚ → Cell
deriving DecidableEq, Repr

/-- pandas column dtype as relevant to `clean_dataframe`: `object`
(strings / mixed python objects) or a numeric dtype. -/
inductive Dtype where
  | object : Dtype
  | numericKind : Dtype
deriving DecidableEq, Repr

/-- One pandas column: a name, a dtype and the list of cells. -/
structure Col where
  name : String
  dtype : Dtype
  cells : List Cell
deriving DecidableEq, Repr

/-- A DataFrame chunk: the row count and the columns.  (The row count
is carried explicitly because `df.to_dict('records')` produces one
record per row even when every column has been projected away.) -/
structure Df where
  nrows : Nat
  cols : List Col
deriving DecidableEq, Repr

/-- Numeral value of a list of decimal digit characters. -/
def digitsVal (l : List Char) : Nat :=
  l.foldl (fun a c => a * 10 + (c.toNat - 48)) 0

/-- Parsing of `pd.to_numeric` on strings, modelled as plain decimal syntax:
optional sign, integer digits, optional fractional digits.  Returns
`none` when the string is not numeric (`pd.to_numeric` raises). -/
def parseNumStr (s : String) : Option ℚ :=
  let cs := s.toList
  let (neg, body) :=
    match cs with
    | '-' :: rest => (true, rest)
    | '+' :: rest => (false, rest)
    | _ => (false, cs)
  match body.splitOn '.' with
  | [ip] =>
    if ip.isEmpty || !ip.all Char.isDigit then none
    else
      let mag : ℚ := (digitsVal ip : ℚ)
      some (if neg then -mag else mag)
  | [ip, fp] =>
    if (ip.isEmpty && fp.isEmpty) || !ip.all Char.isDigit || !fp.all Char.isDigit then none
    else
      let mag : ℚ := (digitsVal ip : ℚ) + (digitsVal fp : ℚ) / ((10 : ℚ) ^ fp.length)
      some (if neg then -mag else mag)
  | _ => none

/-! ## `clean_dataframe` (source lines 269–299) -/

/-- Step 1 (lines 271–273): `available_columns = [c for c in columns if
c in df.columns]; df = df[available_columns]` — project down to the
expected columns, in expected order, skipping absent ones. -/
def selectColumns (dfcols : List Col) (columns : List String) : List Col :=
  columns.filterMap (fun c => dfcols.find? (fun col => col.name == c))

/-- Step 2 (lines 276–277): `df.replace('NA', None)` then
`df.replace('', None)`, elementwise. -/
def replaceNAEmpty : Cell → Cell
  | .str "NA" => .null
  | .str "" => .null
  | c => c

/-- Behaviour of `pd.to_numeric` on one cell: missing values stay missing (NaN),
numbers pass through, a string either parses or raises (`none`). -/
def toNumericCell : Cell → Option Cell
  | .null => some .nan
  | .nan => some .nan
  | .inf b => some (.inf b)
  | .num q => some (.num q)
  | .str s =>
    match parseNumStr s with
    | some q => some (.num q)
    | none => none

/-- pandas `isna` on a cell. -/
def isNA : Cell → Bool
  | .null => true
  | .nan => true
  | _ => false

/-- Behaviour of `pd.to_numeric` over a whole series: every cell must convert, or
the call raises (`none`). -/
def toNumericList : List Cell → Option (List Cell)
  | [] => some []
  | x :: xs =>
    match toNumericCell x, toNumericList xs with
    | some y, some ys => some (y :: ys)
    | _, _ => none

/-- Step 3 (lines 280–290): for an `object`-dtype column, try
`pd.to_numeric`; on success assign the converted series unless it is
entirely NA (`if not numeric_series.isna().all()`); on a parse error
keep the column as is. -/
def convertColumn (c : Col) : Col :=
  if c.dtype = .object then
    match toNumericList c.cells with
    | some converted =>
      if converted.all isNA then c
      else ⟨c.name, .numericKind, converted⟩
    | none => c
  else c

/-- A cell is the float NaN marker. -/
def isNanCell : Cell → Bool
  | .nan => true
  | _ => false

/-- The map NaN to None on one cell, from `df.replace` in step 4. -/
def nanToNull (x : Cell) : Cell :=
  if isNanCell x then .null else x

/-- The map NA (None/NaN) to None on one cell, from `df.where(pd.notnull(df), None)`. -/
def naToNull (x : Cell) : Cell :=
  if isNA x then .null else x

/-- Step 4 (line 294): `df.replace({np.nan: None, pd.NA: None,
pd.NaT: None})` — NaN becomes `None`; a numeric column in which a
replacement happened becomes `object` dtype (it now holds `None`). -/
def replaceNanNone (c : Col) : Col :=
  ⟨c.name,
   if c.dtype = .numericKind && c.cells.any isNanCell then .object else c.dtype,
   c.cells.map nanToNull⟩

/-- Step 5 (line 297): `df.where(pd.notnull(df), None)` — every NA
cell becomes `None`; as in step 4 a numeric column receiving `None`
becomes `object`. -/
def whereNotNull (c : Col) : Col :=
  ⟨c.name,
   if c.dtype = .numericKind && c.cells.any isNA then .object else c.dtype,
   c.cells.map naToNull⟩

/-- The whole per-column cleaning: step 2 (elementwise replace), step 3
(numeric coercion), step 4 and step 5. -/
def cleanCol (c : Col) : Col :=
  whereNotNull (replaceNanNone (convertColumn ⟨c.name, c.dtype, c.cells.map replaceNAEmpty⟩))

/-- The function `clean_dataframe(df, columns)` (lines 269–299): project to the
expected columns, then clean each column. -/
def clean_dataframe (df : Df) (columns : List String) : Df :=
  ⟨df.nrows, (selectColumns df.cols columns).map cleanCol⟩

/-! ## Records and the record-level scrub (lines 337–355) -/

/-- A record: one row as a column-name → value mapping
(`df.to_dict('records')`). -/
abbrev Rec := List (String × Cell)

/-- Conversion `df.to_dict('records')`: one record per row, one entry per column,
in column order. -/
def recordsOf (df : Df) : List Rec :=
  (List.range df.nrows).map (fun i => df.cols.map (fun c => (c.name, c.cells.getD i .null)))

/-- Lines 344–354: the per-value final cleanup — `None` stays `None`, a
float that is NaN or ±Infinity becomes `None`, everything else is kept. -/
def cleanValue : Cell → Cell
  | .null => .null
  | .nan => .null
  | .inf _ => .null
  | c => c

/-- Lines 341–355: the record-level cleanup loop over one record. -/
def cleanRecord (r : Rec) : Rec :=
  r.map (fun kv => (kv.1, cleanValue kv.2))

/-- The `cleaned_records` of one chunk (lines 334–355):
`clean_dataframe`, then `to_dict('records')`, then the NaN/Inf scrub. -/
def cleanedRecords (df : Df) (columns : List String) : List Rec :=
  (recordsOf (clean_dataframe df columns)).map cleanRecord

/-! ## Batching and insertion (lines 357–383) -/

/-- Constant `BATCH_SIZE = 1000` (line 32). -/
def BATCH_SIZE : Nat := 1000

/-- Constant `CHUNK_SIZE = 5000` (line 33). -/
def CHUNK_SIZE : Nat := 5000

/-- The slicing loop `for i in range(0, len(l), b): l[i:i+b]` — split a list into
consecutive slices of size `b` (the last one possibly shorter). -/
def chunksOf (b : Nat) : List α → List (List α)
  | [] => []
  | x :: xs =>
    if b = 0 then [] else (x :: xs).take b :: chunksOf b ((x :: xs).drop b)
termination_by l => l.length
decreasing_by
  simp only [List.length_drop, List.length_cons]
  omega

/-- The remote store, as an oracle: which bulk inserts succeed and
which single-record inserts succeed.  (`supabase.table(t).insert(...)`
either returns or raises.) -/
structure Store where
  bulkOk : List Rec → Bool
  rowOk : Rec → Bool

/-- Lines 367–374: the row-by-row fallback after a failed bulk insert.
Returns the records submitted individually (in order) and the number of
them whose insert succeeded (failures are skipped via `continue`). -/
def rowByRow (st : Store) : List Rec → List Rec × Nat
  | [] => ([], 0)
  | r :: rs =>
    let rest := rowByRow st rs
    (r :: rest.1, (if st.rowOk r then 1 else 0) + rest.2)

/-- Lines 361–374: one batch's contribution to `total_rows`: the whole
batch length on bulk success, otherwise the count of individually
successful rows. -/
def insertBatch (st : Store) (b : List Rec) : Nat :=
  if st.bulkOk b then b.length else (rowByRow st b).2

/-- Lines 333–374: one chunk's contribution to `total_rows`: clean the
chunk, batch the cleaned records, insert each batch. -/
def chunkContribution (st : Store) (columns : List String) (df : Df) : Nat :=
  ((chunksOf BATCH_SIZE (cleanedRecords df columns)).map (insertBatch st)).sum

/-- The chunk stream of one file, as seen by the `for chunk in
chunk_iter` loop: each element is either a chunk or the point where an
unexpected exception is raised (e.g. a parse error while fetching the
next chunk). -/
def importTableRun (st : Store) (columns : List String) :
    List (Option Df) → Nat → Nat
  | [], acc => acc
  | some df :: rest, acc => importTableRun st columns rest (acc + chunkContribution st columns df)
  | none :: _, acc => acc

/-- The function `import_csv_to_table` on a stream of well-read chunks (lines
302–383): fold the chunk contributions, starting from `total_rows = 0`. -/
def import_csv_to_table (st : Store) (columns : List String) (chunks : List Df) : Nat :=
  importTableRun st columns (chunks.map some) 0

/-- Build the `pd.read_csv` view of one chunk of data rows: every
column named by the header, cells taken positionally, `object` dtype
(textual CSV cells). -/
def mkChunk (header : List String) (rows : List (List Cell)) : Df :=
  ⟨rows.length,
   (List.range header.length).map (fun j =>
     ⟨header.getD j "", .object, rows.map (fun r => r.getD j .null)⟩)⟩

/-- Reading `pd.read_csv(..., chunksize=CHUNK_SIZE)` over the data rows of a
file (header excluded): consecutive chunks of `CHUNK_SIZE` rows. -/
def readChunks (header : List String) (rows : List (List Cell)) : List Df :=
  (chunksOf CHUNK_SIZE rows).map (mkChunk header)

/-- Importing one whole file: read it in chunks and run the insert loop. -/
def importFile (st : Store) (columns : List String) (header : List String)
    (rows : List (List Cell)) : Nat :=
  import_csv_to_table st columns (readChunks header rows)

/-- The number of rows the loader attempts to insert for a file: the
total size of all batches submitted over all chunks. -/
def attemptedRows (columns : List String) (header : List String)
    (rows : List (List Cell)) : Nat :=
  ((readChunks header rows).map (fun df =>
    ((chunksOf BATCH_SIZE (cleanedRecords df columns)).map List.length).sum)).sum

/-! ## File resolution and the main loop (lines 254–266, 386–450) -/

/-- One entry of `CSV_FILES`: primary file, optional fallback, expected
columns. -/
structure TableConfig where
  file : String
  fallback : Option String
  columns : List String

/-- The function `find_csv_file` (lines 254–266): check the primary path; if absent
and a fallback is configured, check the fallback; else `None`.  The
filesystem is the predicate `fs` (`Path.exists`). -/
def find_csv_file (fs : String → Bool) (config : TableConfig) : Option String :=
  if fs config.file then some config.file
  else
    match config.fallback with
    | some fb => if fs fb then some fb else none
    | none => none

/-- The per-table results accumulated by `main` (lines 404–422): for
each configured table, resolve the file; import it when found,
otherwise record a zero count and continue with the next table.
`imp` abstracts `import_csv_to_table` applied to the resolved path. -/
def mainResults (fs : String → Bool) (imp : String → TableConfig → Nat)
    (tables : List (String × TableConfig)) : List (String × Nat) :=
  tables.map (fun tc =>
    match find_csv_file fs tc.2 with
    | some f => (tc.1, imp f tc.2)
    | none => (tc.1, 0))

/-! ## Credentials and client setup (lines 92–112) -/

/-- The two required environment variables. -/
structure Env where
  url : Option String
  key : Option String

/-- Python truthiness of `os.environ.get(...)`: `None` and the empty
string are falsy. -/
def truthy : Option String → Bool
  | none => false
  | some s => !(s == "")

/-- The function `get_supabase_client` (lines 92–112): if either variable is unset
(or falsy) print diagnostics and `sys.exit(1)`; if `create_client`
raises, print and `sys.exit(1)`; otherwise return the client.  The
`create` oracle models `create_client` (`none` = raises). -/
def get_supabase_client (env : Env) (create : String → String → Option Store) :
    Except Nat Store :=
  if !truthy env.url || !truthy env.key then .error 1
  else
    match env.url, env.key with
    | some u, some k =>
      match create u k with
      | some st => .ok st
      | none => .error 1
    | _, _ => .error 1

/-- The function `main` (lines 386–450) up to its observable result: obtain the
client first (fatal on failure, before any file is touched), then
process every configured table.  `imp` abstracts importing a resolved
file with a given client. -/
def mainRun (env : Env) (create : String → String → Option Store)
    (fs : String → Bool) (imp : Store → String → TableConfig → Nat)
    (tables : List (String × TableConfig)) : Except Nat (List (String × Nat)) :=
  match get_supabase_client env create with
  | .error n => .error n
  | .ok st => .ok (mainResults fs (imp st) tables)

/-! ## General lemmas about the embedding -/

theorem cleanValue_ne_nan (x : Cell) : cleanValue x ≠ .nan := by
  cases x <;> simp [cleanValue]

theorem cleanValue_ne_inf (x : Cell) (b : Bool) : cleanValue x ≠ .inf b := by
  cases x <;> simp [cleanValue]

theorem mem_selectColumns {dfcols : List Col} {columns : List String} {x : Col}
    (hx : x ∈ selectColumns dfcols columns) : x.name ∈ columns ∧ x ∈ dfcols := by
  unfold selectColumns at hx
  obtain ⟨c, hc, hfind⟩ := List.mem_filterMap.mp hx
  refine ⟨?_, List.mem_of_find?_eq_some hfind⟩
  have h1 : (x.name == c) = true :=
    @List.find?_some _ (fun col => col.name == c) x dfcols hfind
  have : x.name = c := by simpa using h1
  rw [this]; exact hc

theorem convertColumn_name (c : Col) : (convertColumn c).name = c.name := by
  unfold convertColumn
  split
  · split
    · split <;> rfl
    · rfl
  · rfl

theorem cleanCol_name (c : Col) : (cleanCol c).name = c.name := by
  unfold cleanCol whereNotNull replaceNanNone
  simp [convertColumn_name]

theorem rowByRow_fst (st : Store) (l : List Rec) : (rowByRow st l).1 = l := by
  induction l with
  | nil => rfl
  | cons r rs ih => simp [rowByRow, ih]

theorem rowByRow_snd (st : Store) (l : List Rec) :
    (rowByRow st l).2 = (l.filter st.rowOk).length := by
  induction l with
  | nil => rfl
  | cons r rs ih =>
    by_cases h : st.rowOk r = true
    · simp only [rowByRow, ih, List.filter, h, if_true]
      simp [h]
      omega
    · simp [rowByRow, ih, List.filter, h]

theorem importTableRun_somes (st : Store) (columns : List String) (cs : List Df) :
    ∀ acc, importTableRun st columns (cs.map some) acc =
      acc + (cs.map (chunkContribution st columns)).sum := by
  induction cs with
  | nil => intro acc; simp [importTableRun]
  | cons c cs ih =>
    intro acc
    simp only [List.map_cons, importTableRun, ih, List.sum_cons]
    omega

theorem chunksOf_nil (b : Nat) : chunksOf b ([] : List α) = [] := by
  simp [chunksOf]

theorem chunksOf_cons_eq {b : Nat} (hb : b ≠ 0) {l : List α} (hl : l ≠ []) :
    chunksOf b l = l.take b :: chunksOf b (l.drop b) := by
  cases l with
  | nil => exact absurd rfl hl
  | cons x xs =>
    rw [chunksOf]
    simp [hb]

theorem chunksOf_eq_nil_iff {b : Nat} (hb : b ≠ 0) {l : List α} :
    chunksOf b l = [] ↔ l = [] := by
  constructor
  · intro h
    by_contra hl
    rw [chunksOf_cons_eq hb hl] at h
    exact List.cons_ne_nil _ _ h
  · intro h
    rw [h, chunksOf_nil]

theorem chunksOf_flatten {b : Nat} (hb : b ≠ 0) (l : List α) :
    (chunksOf b l).flatten = l := by
  generalize hn : l.length = n
  induction n using Nat.strong_induction_on generalizing l with
  | _ n ih =>
    cases l with
    | nil => simp [chunksOf_nil]
    | cons x xs =>
      rw [chunksOf_cons_eq hb (List.cons_ne_nil x xs), List.flatten_cons]
      have hlt : ((x :: xs).drop b).length < n := by
        rw [← hn]
        simp only [List.length_drop, List.length_cons]
        omega
      rw [ih _ hlt _ rfl]
      exact List.take_append_drop b (x :: xs)

theorem chunksOf_sum_length {b : Nat} (hb : b ≠ 0) (l : List α) :
    ((chunksOf b l).map List.length).sum = l.length := by
  rw [← List.length_flatten, chunksOf_flatten hb]

theorem chunksOf_mem_length {b : Nat} (hb : b ≠ 0) (l : List α) :
    ∀ bl ∈ chunksOf b l, 0 < bl.length ∧ bl.length ≤ b := by
  generalize hn : l.length = n
  induction n using Nat.strong_induction_on generalizing l with
  | _ n ih =>
    cases l with
    | nil => simp [chunksOf_nil]
    | cons x xs =>
      rw [chunksOf_cons_eq hb (List.cons_ne_nil x xs)]
      intro bl hbl
      rcases List.mem_cons.mp hbl with h | h
      · subst h
        simp only [List.length_take, List.length_cons]
        omega
      · have hlt : ((x :: xs).drop b).length < n := by
          rw [← hn]
          simp only [List.length_drop, List.length_cons]
          omega
        exact ih _ hlt _ rfl bl h

theorem chunksOf_dropLast_length {b : Nat} (hb : b ≠ 0) (l : List α) :
    ∀ bl ∈ (chunksOf b l).dropLast, bl.length = b := by
  generalize hn : l.length = n
  induction n using Nat.strong_induction_on generalizing l with
  | _ n ih =>
    cases l with
    | nil => simp [chunksOf_nil]
    | cons x xs =>
      rw [chunksOf_cons_eq hb (List.cons_ne_nil x xs)]
      intro bl hbl
      rcases hrest : chunksOf b ((x :: xs).drop b) with _ | ⟨r, rs⟩
      · rw [hrest] at hbl
        simp at hbl
      · rw [hrest] at hbl
        have hne : (x :: xs).drop b ≠ [] := by
          intro hdrop
          rw [hdrop, chunksOf_nil] at hrest
          exact List.cons_ne_nil _ _ hrest.symm
        have hblen : b < (x :: xs).length := by
          by_contra hcon
          exact hne (List.drop_eq_nil_of_le (by omega))
        rw [List.dropLast_cons₂] at hbl
        rcases List.mem_cons.mp hbl with h | h
        · subst h
          simp only [List.length_take, List.length_cons] at *
          omega
        · have hlt : ((x :: xs).drop b).length < n := by
            rw [← hn]
            simp only [List.length_drop, List.length_cons]
            omega
          exact ih _ hlt _ rfl bl (hrest ▸ h)

theorem length_cleanedRecords (df : Df) (columns : List String) :
    (cleanedRecords df columns).length = df.nrows := by
  simp [cleanedRecords, recordsOf, clean_dataframe]

theorem mkChunk_nrows (header : List String) (rows : List (List Cell)) :
    (mkChunk header rows).nrows = rows.length := rfl

/-! ## C1: per-row fallback on bulk-insert failure -/

/-- C1.  When a batch's bulk insert fails, every record of the batch is
submitted individually in order, failed rows are skipped without
aborting the rest, the batch contributes exactly the number of rows
whose individual insert succeeded (batch size − 1 when exactly one row
is rejected), and the per-table count is the sum of all batch
contributions (bulk or individual successes). -/
theorem batch_fallback_semantics (st : Store) (columns : List String) (chunks : List Df)
    (b : List Rec) (hb : st.bulkOk b = false) :
    (rowByRow st b).1 = b ∧
    insertBatch st b = (b.filter st.rowOk).length ∧
    (b.countP (fun r => !st.rowOk r) = 1 → insertBatch st b = b.length - 1) ∧
    import_csv_to_table st columns chunks =
      (chunks.map (chunkContribution st columns)).sum := by
  have hins : insertBatch st b = (b.filter st.rowOk).length := by
    unfold insertBatch
    rw [hb]
    simp [rowByRow_snd]
  refine ⟨rowByRow_fst st b, hins, ?_, ?_⟩
  · intro hcount
    have hsplit := List.length_eq_countP_add_countP st.rowOk b
    have hco : b.countP (fun a => decide ¬(st.rowOk a = true)) =
        b.countP (fun r => !st.rowOk r) := by
      apply List.countP_congr
      intro a _
      simp
    rw [hco] at hsplit
    have hfil : (b.filter st.rowOk).length = b.countP st.rowOk :=
      (List.countP_eq_length_filter st.rowOk b).symm
    omega
  · unfold import_csv_to_table
    rw [importTableRun_somes]
    omega

def c1store : Store :=
  ⟨fun _ => false, fun r => decide (r ≠ [("a", Cell.str "x")])⟩

def c1batch : List Rec :=
  [[("a", Cell.str "p")], [("a", Cell.str "x")], [("a", Cell.str "q")]]

/-- C1 witness: a concrete 3-record batch whose bulk insert fails and
in which exactly one row is rejected contributes 3 − 1 = 2 rows. -/
theorem batch_fallback_semantics_witness :
    c1store.bulkOk c1batch = false ∧
    c1batch.countP (fun r => !c1store.rowOk r) = 1 ∧
    insertBatch c1store c1batch = c1batch.length - 1 :=
  ⟨rfl, by decide,
    (batch_fallback_semantics c1store [] [] c1batch rfl).2.2.1 (by decide)⟩

/-! ## C2: no NaN/Infinity survives cleaning -/

/-- C2.  For every input chunk (NaN/Infinity cells included), no record
produced by cleaning and submitted to the table carries a NaN or
±Infinity value: every value of every cleaned record is neither. -/
theorem cleanedRecords_no_nan_inf (df : Df) (columns : List String) (r : Rec)
    (hr : r ∈ cleanedRecords df columns) (kv : String × Cell) (hkv : kv ∈ r) :
    kv.2 ≠ .nan ∧ ∀ b, kv.2 ≠ .inf b := by
  unfold cleanedRecords at hr
  obtain ⟨r0, _, rfl⟩ := List.mem_map.mp hr
  unfold cleanRecord at hkv
  obtain ⟨kv0, _, rfl⟩ := List.mem_map.mp hkv
  exact ⟨cleanValue_ne_nan kv0.2, cleanValue_ne_inf kv0.2⟩

def c2df : Df :=
  ⟨1, [⟨"a", .object, [Cell.nan]⟩, ⟨"b", .object, [Cell.inf true]⟩]⟩

/-- C2 witness: a one-row chunk whose cells are NaN and +Infinity
cleans to a record holding nulls. -/
theorem cleanedRecords_no_nan_inf_witness :
    [("a", Cell.null), ("b", Cell.null)] ∈ cleanedRecords c2df ["a", "b"] ∧
    ("b", Cell.null) ∈ ([("a", Cell.null), ("b", Cell.null)] : Rec) ∧
    (Cell.null ≠ .nan ∧ ∀ b, Cell.null ≠ .inf b) :=
  ⟨by decide, by decide,
    cleanedRecords_no_nan_inf c2df ["a", "b"] [("a", Cell.null), ("b", Cell.null)]
      (by decide) ("b", Cell.null) (by decide)⟩

/-! ## C5: batching shape and the 2,500-row scenario -/

theorem chunksOf_1000_of_len_2500 (l : List α) (hl : l.length = 2500) :
    (chunksOf 1000 l).map List.length = [1000, 1000, 500] := by
  have h1 : l ≠ [] := by
    intro h
    rw [h] at hl
    simp at hl
  rw [chunksOf_cons_eq (by omega) h1]
  have hlen1 : (l.drop 1000).length = 1500 := by
    simp [hl]
  have h2 : l.drop 1000 ≠ [] := by
    intro h
    rw [h] at hlen1
    simp at hlen1
  rw [chunksOf_cons_eq (by omega) h2]
  have hlen2 : ((l.drop 1000).drop 1000).length = 500 := by
    simp only [List.length_drop]
    omega
  have h3 : (l.drop 1000).drop 1000 ≠ [] := by
    intro h
    rw [h] at hlen2
    simp at hlen2
  rw [chunksOf_cons_eq (by omega) h3]
  have hlen3 : (((l.drop 1000).drop 1000).drop 1000).length = 0 := by
    simp only [List.length_drop]
    omega
  have h4 : ((l.drop 1000).drop 1000).drop 1000 = [] :=
    List.eq_nil_of_length_eq_zero hlen3
  rw [h4, chunksOf_nil]
  simp only [List.map_cons, List.map_nil, List.length_take, hl, hlen1, hlen2]
  decide

/-- C5.  The loader splits every cleaned chunk into batches of exactly
`BATCH_SIZE` records, in chunk order with no reordering (the batches
concatenate back to the cleaned records), the last batch possibly
smaller; a 2,500-row file read with `CHUNK_SIZE = 5000` yields one
chunk whose cleaned records split into batches of 1000/1000/500, and
on full bulk success 2,500 rows are counted. -/
theorem batching_shape (df : Df) (columns header : List String)
    (rows : List (List Cell)) (hrows : rows.length = 2500)
    (st : Store) (hbulk : ∀ bt, st.bulkOk bt = true) :
    (chunksOf BATCH_SIZE (cleanedRecords df columns)).flatten = cleanedRecords df columns ∧
    (∀ bl ∈ (chunksOf BATCH_SIZE (cleanedRecords df columns)).dropLast,
        bl.length = BATCH_SIZE) ∧
    (∀ bl ∈ chunksOf BATCH_SIZE (cleanedRecords df columns),
        0 < bl.length ∧ bl.length ≤ BATCH_SIZE) ∧
    (readChunks header rows).length = 1 ∧
    (∀ df' ∈ readChunks header rows,
        (chunksOf BATCH_SIZE (cleanedRecords df' columns)).map List.length
          = [1000, 1000, 500]) ∧
    importFile st columns header rows = 2500 := by
  have hb : BATCH_SIZE ≠ 0 := by
    unfold BATCH_SIZE
    omega
  have hone : readChunks header rows = [mkChunk header rows] := by
    unfold readChunks
    have hne : rows ≠ [] := by
      intro h
      rw [h] at hrows
      simp at hrows
    rw [chunksOf_cons_eq (by unfold CHUNK_SIZE; omega) hne]
    have hd : rows.drop CHUNK_SIZE = [] :=
      List.drop_eq_nil_of_le (by rw [hrows]; unfold CHUNK_SIZE; omega)
    have ht : rows.take CHUNK_SIZE = rows :=
      List.take_of_length_le (by rw [hrows]; unfold CHUNK_SIZE; omega)
    rw [hd, chunksOf_nil, ht]
    rfl
  have hlenrec : ∀ df' ∈ readChunks header rows,
      (cleanedRecords df' columns).length = 2500 := by
    intro df' hdf'
    rw [hone] at hdf'
    rcases List.mem_singleton.mp hdf' with rfl
    rw [length_cleanedRecords, mkChunk_nrows, hrows]
  refine ⟨chunksOf_flatten hb _, chunksOf_dropLast_length hb _,
    chunksOf_mem_length hb _, by rw [hone]; rfl, ?_, ?_⟩
  · intro df' hdf'
    exact chunksOf_1000_of_len_2500 _ (hlenrec df' hdf')
  · unfold importFile
    rw [hone]
    unfold import_csv_to_table
    rw [importTableRun_somes]
    simp only [List.map_cons, List.map_nil, List.sum_cons, List.sum_nil]
    unfold chunkContribution
    have hmap : (chunksOf BATCH_SIZE (cleanedRecords (mkChunk header rows) columns)).map
        (insertBatch st) =
        (chunksOf BATCH_SIZE (cleanedRecords (mkChunk header rows) columns)).map
        List.length := by
      apply List.map_congr_left
      intro bt _
      unfold insertBatch
      rw [hbulk bt]
      simp
    rw [hmap, chunksOf_sum_length hb, hlenrec (mkChunk header rows)
      (by rw [hone]; exact List.mem_singleton.mpr rfl)]
    omega

/-- C5 witness: the theorem applied to a concrete 2,500-row file and an
always-succeeding store gives a persisted count of 2,500. -/
theorem batching_shape_witness :
    (List.replicate 2500 ([Cell.str "v"] : List Cell)).length = 2500 ∧
    importFile ⟨fun _ => true, fun _ => true⟩ ["a"] ["a"]
      (List.replicate 2500 [Cell.str "v"]) = 2500 :=
  ⟨List.length_replicate 2500 _,
    (batching_shape ⟨0, []⟩ ["a"] ["a"] (List.replicate 2500 [Cell.str "v"])
      (List.length_replicate 2500 _) ⟨fun _ => true, fun _ => true⟩
      (fun _ => rfl)).2.2.2.2.2⟩

/-! ## C7: attempted rows = data rows; persisted ≤ attempted -/

theorem insertBatch_le_length (st : Store) (b : List Rec) :
    insertBatch st b ≤ b.length := by
  unfold insertBatch
  split
  · exact Nat.le_refl _
  · rw [rowByRow_snd]
    exact List.length_filter_le _ _

/-- C7.  For every input file, the total number of rows submitted over
all batches equals the number of data rows in the file (header
excluded), and the per-table persisted count is at most that number. -/
theorem rows_attempted_and_bound (st : Store) (columns header : List String)
    (rows : List (List Cell)) :
    attemptedRows columns header rows = rows.length ∧
    importFile st columns header rows ≤ rows.length := by
  have hb : BATCH_SIZE ≠ 0 := by
    unfold BATCH_SIZE
    omega
  have hc : CHUNK_SIZE ≠ 0 := by
    unfold CHUNK_SIZE
    omega
  have hchunk : ∀ df' ∈ readChunks header rows,
      ((chunksOf BATCH_SIZE (cleanedRecords df' columns)).map List.length).sum
        = (cleanedRecords df' columns).length :=
    fun df' _ => chunksOf_sum_length hb _
  have hread : (readChunks header rows).map (fun df' => (cleanedRecords df' columns).length)
      = (chunksOf CHUNK_SIZE rows).map List.length := by
    unfold readChunks
    rw [List.map_map]
    apply List.map_congr_left
    intro part _
    simp [length_cleanedRecords, mkChunk_nrows]
  have hatt : attemptedRows columns header rows = rows.length := by
    unfold attemptedRows
    rw [List.map_congr_left hchunk, hread, chunksOf_sum_length hc]
  refine ⟨hatt, ?_⟩
  unfold importFile import_csv_to_table
  rw [importTableRun_somes]
  simp only [Nat.zero_add]
  calc ((readChunks header rows).map (chunkContribution st columns)).sum
      ≤ ((readChunks header rows).map
          (fun df' => (cleanedRecords df' columns).length)).sum := by
        apply List.sum_le_sum
        intro df' _
        unfold chunkContribution
        rw [← chunksOf_sum_length hb (cleanedRecords df' columns)]
        apply List.sum_le_sum
        intro bt _
        exact insertBatch_le_length st bt
    _ = rows.length := by rw [hread, chunksOf_sum_length hc]

/-! ## C10: exceptions mid-file keep the partial count -/

theorem importTableRun_append_somes (st : Store) (columns : List String) (cs : List Df) :
    ∀ (tail : List (Option Df)) (acc : Nat),
      importTableRun st columns (cs.map some ++ tail) acc =
        importTableRun st columns tail
          (acc + (cs.map (chunkContribution st columns)).sum) := by
  induction cs with
  | nil =>
    intro tail acc
    simp [importTableRun]
  | cons c cs ih =>
    intro tail acc
    show importTableRun st columns (List.map some cs ++ tail)
        (acc + chunkContribution st columns c) =
      importTableRun st columns tail
        (acc + (chunkContribution st columns c
          + (List.map (chunkContribution st columns) cs).sum))
    rw [ih, Nat.add_assoc]

/-- C10.  If an unexpected exception strikes a file's processing after
some chunks were handled, `import_csv_to_table` catches it and returns
the row count accumulated before the exception (the count of a run over
exactly the already-processed chunks), regardless of what followed. -/
theorem file_exception_partial_count (st : Store) (columns : List String)
    (cs : List Df) (rest : List (Option Df)) :
    importTableRun st columns (cs.map some ++ none :: rest) 0 =
      (cs.map (chunkContribution st columns)).sum ∧
    importTableRun st columns (cs.map some ++ none :: rest) 0 =
      import_csv_to_table st columns cs := by
  have h : importTableRun st columns (cs.map some ++ none :: rest) 0 =
      (cs.map (chunkContribution st columns)).sum := by
    rw [importTableRun_append_somes]
    simp [importTableRun]
  refine ⟨h, ?_⟩
  rw [h]
  unfold import_csv_to_table
  rw [importTableRun_somes]
  omega

/-! ## C8: records carry only expected keys -/

/-- C8.  Every cleaned record's keys come from the expected-column list
and from columns actually present in the file; an expected column
missing from the file never appears as a key (and causes no error). -/
theorem record_keys_expected (df : Df) (columns : List String) (r : Rec)
    (hr : r ∈ cleanedRecords df columns) :
    (∀ kv ∈ r, kv.1 ∈ columns ∧ ∃ c ∈ df.cols, c.name = kv.1) ∧
    (∀ k ∈ columns, (∀ c ∈ df.cols, c.name ≠ k) → ∀ kv ∈ r, kv.1 ≠ k) := by
  have hkey : ∀ kv ∈ r, kv.1 ∈ columns ∧ ∃ c ∈ df.cols, c.name = kv.1 := by
    intro kv hkv
    unfold cleanedRecords at hr
    obtain ⟨r0, hr0, rfl⟩ := List.mem_map.mp hr
    unfold cleanRecord at hkv
    obtain ⟨kv0, hkv0, rfl⟩ := List.mem_map.mp hkv
    unfold recordsOf clean_dataframe at hr0
    obtain ⟨i, _, rfl⟩ := List.mem_map.mp hr0
    obtain ⟨c, hc, rfl⟩ := List.mem_map.mp hkv0
    obtain ⟨c0, hc0, rfl⟩ := List.mem_map.mp hc
    have hsel := mem_selectColumns hc0
    simp only [cleanCol_name]
    exact ⟨hsel.1, c0, hsel.2, rfl⟩
  refine ⟨hkey, ?_⟩
  intro k _ habs kv hkv hkkv
  obtain ⟨-, c, hc, hcn⟩ := hkey kv hkv
  exact habs c hc (hkkv ▸ hcn)

def c8df : Df :=
  ⟨1, [⟨"keep", .object, [Cell.str "v"]⟩, ⟨"extra", .object, [Cell.str "w"]⟩]⟩

/-- C8 witness: with expected columns `keep` and `missing`, the record
of a file holding `keep` and `extra` keeps only `keep`: `extra` is
dropped and `missing` is simply absent. -/
theorem record_keys_expected_witness :
    [("keep", Cell.str "v")] ∈ cleanedRecords c8df ["keep", "missing"] ∧
    (∀ kv ∈ ([("keep", Cell.str "v")] : Rec), kv.1 ∈ ["keep", "missing"]) ∧
    (∀ kv ∈ ([("keep", Cell.str "v")] : Rec), kv.1 ≠ "missing") :=
  ⟨by decide,
    fun kv hkv =>
      ((record_keys_expected c8df ["keep", "missing"] [("keep", Cell.str "v")]
        (by decide)).1 kv hkv).1,
    (record_keys_expected c8df ["keep", "missing"] [("keep", Cell.str "v")]
        (by decide)).2 "missing" (by decide) (by decide)⟩

/-! ## C6: primary/fallback file resolution, skip on neither -/

/-- C6.  File resolution checks the primary path first; when the
primary is absent and a fallback is configured and present, the
fallback is used; when resolution fails the table's entry in the
results is a zero count and every other configured table is still
processed. -/
theorem file_resolution (fs : String → Bool) (cfg : TableConfig) (fb : String)
    (imp : String → TableConfig → Nat) (pre post : List (String × TableConfig))
    (t : String) :
    (fs cfg.file = true → find_csv_file fs cfg = some cfg.file) ∧
    (fs cfg.file = false → cfg.fallback = some fb → fs fb = true →
      find_csv_file fs cfg = some fb) ∧
    (find_csv_file fs cfg = none →
      mainResults fs imp (pre ++ (t, cfg) :: post) =
        mainResults fs imp pre ++ (t, 0) :: mainResults fs imp post) := by
  refine ⟨?_, ?_, ?_⟩
  · intro h
    unfold find_csv_file
    rw [h]
    simp
  · intro h hfb hffb
    unfold find_csv_file
    rw [h, hfb]
    simp [hffb]
  · intro h
    unfold mainResults
    rw [List.map_append, List.map_cons]
    simp only [h]

def playersCfg : TableConfig :=
  ⟨"players_utf8.csv", some "players.csv", ["playerID", "name"]⟩

/-- C6 witness: with only `players.csv` on disk, the `players_temp`
config resolves to its fallback; with nothing on disk, a table resolves
to a zero count between its siblings. -/
theorem file_resolution_witness :
    find_csv_file (fun s => s == "players.csv") playersCfg = some "players.csv" ∧
    mainResults (fun _ => false) (fun _ _ => 7)
      ([("a", ⟨"a.csv", none, []⟩)] ++ ("p", playersCfg) :: [("b", ⟨"b.csv", none, []⟩)]) =
      mainResults (fun _ => false) (fun _ _ => 7) [("a", ⟨"a.csv", none, []⟩)]
        ++ ("p", 0) :: mainResults (fun _ => false) (fun _ _ => 7) [("b", ⟨"b.csv", none, []⟩)] :=
  ⟨(file_resolution (fun s => s == "players.csv") playersCfg "players.csv"
      (fun _ _ => 7) [] [] "p").2.1 (by decide) rfl (by decide),
   (file_resolution (fun _ => false) playersCfg "players.csv" (fun _ _ => 7)
      [("a", ⟨"a.csv", none, []⟩)] [("b", ⟨"b.csv", none, []⟩)] "p").2.2 (by decide)⟩

/-! ## C9: missing credentials / client failure are fatal -/

/-- C9.  A missing endpoint URL or access key makes the run fail with
exit status 1 before any table is processed, and so does a failure to
create the store client. -/
theorem get_client_error_of_missing (env : Env) (create : String → String → Option Store)
    (h : env.url = none ∨ env.key = none) :
    get_supabase_client env create = .error 1 := by
  rcases h with h | h <;> simp [get_supabase_client, truthy, h]

theorem get_client_error_of_create_fail (env : Env)
    (create : String → String → Option Store) (hcr : ∀ u k, create u k = none) :
    get_supabase_client env create = .error 1 := by
  unfold get_supabase_client
  split
  · rfl
  · cases henv : env.url with
    | none => simp [henv]
    | some u =>
      cases henvk : env.key with
      | none => simp [henv, henvk]
      | some k => simp [henv, henvk, hcr u k]

theorem setup_failure_fatal (env : Env) (create : String → String → Option Store)
    (fs : String → Bool) (imp : Store → String → TableConfig → Nat)
    (tables : List (String × TableConfig)) :
    ((env.url = none ∨ env.key = none) →
      mainRun env create fs imp tables = .error 1) ∧
    ((∀ u k, create u k = none) →
      mainRun env create fs imp tables = .error 1) ∧
    (∀ n res, mainRun env create fs imp tables = .error n →
      mainRun env create fs imp tables ≠ .ok res) := by
  refine ⟨?_, ?_, ?_⟩
  · intro h
    unfold mainRun
    rw [get_client_error_of_missing env create h]
  · intro hcr
    unfold mainRun
    rw [get_client_error_of_create_fail env create hcr]
  · intro n res herr hok
    rw [herr] at hok
    exact Except.noConfusion hok

/-- C9 witness: a missing URL gives exit code 1; present credentials
with a failing client constructor also give exit code 1. -/
theorem setup_failure_fatal_witness :
    mainRun ⟨none, some "key"⟩ (fun _ _ => some ⟨fun _ => true, fun _ => true⟩)
      (fun _ => false) (fun _ _ _ => 0) [] = .error 1 ∧
    mainRun ⟨some "url", some "key"⟩ (fun _ _ => none)
      (fun _ => false) (fun _ _ _ => 0) [] = .error 1 :=
  ⟨(setup_failure_fatal ⟨none, some "key"⟩ (fun _ _ => some ⟨fun _ => true, fun _ => true⟩)
      (fun _ => false) (fun _ _ _ => 0) []).1 (Or.inl rfl),
   (setup_failure_fatal ⟨some "url", some "key"⟩ (fun _ _ => none)
      (fun _ => false) (fun _ _ _ => 0) []).2.1 (fun _ _ => rfl)⟩

/-! ## Cell-level facts about the cleaning maps -/

/-- A cell a pandas float (numeric-dtype) column can hold: a finite
number, NaN or ±Infinity. -/
def isFloatCell : Cell → Bool
  | .num _ => true
  | .nan => true
  | .inf _ => true
  | _ => false

theorem replaceNAEmpty_idem (x : Cell) :
    replaceNAEmpty (replaceNAEmpty x) = replaceNAEmpty x := by
  cases x with
  | str s =>
    by_cases h1 : s = "NA"
    · subst h1; rfl
    · by_cases h2 : s = ""
      · subst h2; rfl
      · simp [replaceNAEmpty, h1, h2]
  | null => rfl
  | nan => rfl
  | inf b => rfl
  | num q => rfl

theorem replaceNAEmpty_float {x : Cell} (h : isFloatCell x = true) :
    replaceNAEmpty x = x := by
  cases x <;> simp_all [isFloatCell, replaceNAEmpty]

theorem replaceNAEmpty_null : replaceNAEmpty .null = .null := rfl

theorem replaceNAEmpty_nanToNull {x : Cell} (h : replaceNAEmpty x = x) :
    replaceNAEmpty (nanToNull x) = nanToNull x := by
  unfold nanToNull
  cases hx : isNanCell x
  · simpa [hx] using h
  · simp [hx, replaceNAEmpty]

theorem isNanCell_nanToNull (x : Cell) : isNanCell (nanToNull x) = false := by
  cases x <;> rfl

theorem nanToNull_eq_self {x : Cell} (h : isNanCell x = false) : nanToNull x = x := by
  cases x <;> simp_all [isNanCell, nanToNull, isNA]

theorem naToNull_eq_self {x : Cell} (h : isNanCell x = false) : naToNull x = x := by
  cases x <;> simp_all [isNanCell, naToNull, isNA]

theorem isNA_nanToNull (x : Cell) : isNA (nanToNull x) = isNA x := by
  cases x <;> rfl

theorem toNumericCell_nanToNull (x : Cell) :
    toNumericCell (nanToNull x) = toNumericCell x := by
  cases x <;> rfl

theorem toNumericCell_isNA {x y : Cell} (h : toNumericCell x = some y) :
    isNA y = isNA x := by
  cases x with
  | str s =>
    simp only [toNumericCell] at h
    cases hp : parseNumStr s with
    | none => rw [hp] at h; exact Option.noConfusion h
    | some q =>
      rw [hp] at h
      cases h
      rfl
  | null => cases h; rfl
  | nan => cases h; rfl
  | inf b => cases h; rfl
  | num q => cases h; rfl

theorem toNumericCell_float {x y : Cell} (h : toNumericCell x = some y) :
    isFloatCell y = true := by
  cases x with
  | str s =>
    simp only [toNumericCell] at h
    cases hp : parseNumStr s with
    | none => rw [hp] at h; exact Option.noConfusion h
    | some q =>
      rw [hp] at h
      cases h
      rfl
  | null => cases h; rfl
  | nan => cases h; rfl
  | inf b => cases h; rfl
  | num q => cases h; rfl

theorem toNumericCell_of_float {x : Cell} (h : isFloatCell x = true) :
    toNumericCell x = some x := by
  cases x <;> simp_all [isFloatCell, toNumericCell]

/-! ## List-level facts -/

theorem map_eq_self_of {f : α → α} {l : List α} (h : ∀ x ∈ l, f x = x) :
    l.map f = l := by
  induction l with
  | nil => rfl
  | cons x xs ih =>
    rw [List.map_cons, h x (List.mem_cons_self x xs),
      ih (fun y hy => h y (List.mem_cons_of_mem x hy))]

theorem any_eq_false_of {p : α → Bool} {l : List α} (h : ∀ x ∈ l, p x = false) :
    l.any p = false := by
  rw [List.any_eq_false]
  intro x hx
  simp [h x hx]

theorem toNumericList_map_nanToNull (ls : List Cell) :
    toNumericList (ls.map nanToNull) = toNumericList ls := by
  induction ls with
  | nil => rfl
  | cons x xs ih =>
    rw [List.map_cons]
    unfold toNumericList
    rw [toNumericCell_nanToNull, ih]

theorem toNumericList_all_isNA {ls conv : List Cell}
    (h : toNumericList ls = some conv) : conv.all isNA = ls.all isNA := by
  induction ls generalizing conv with
  | nil =>
    cases h
    rfl
  | cons x xs ih =>
    unfold toNumericList at h
    cases hx : toNumericCell x with
    | none => rw [hx] at h; exact Option.noConfusion h
    | some y =>
      rw [hx] at h
      cases hxs : toNumericList xs with
      | none => rw [hxs] at h; exact Option.noConfusion h
      | some ys =>
        rw [hxs] at h
        cases h
        rw [List.all_cons, List.all_cons, ih hxs, toNumericCell_isNA hx]

theorem toNumericList_float {ls conv : List Cell}
    (h : toNumericList ls = some conv) : ∀ y ∈ conv, isFloatCell y = true := by
  induction ls generalizing conv with
  | nil =>
    cases h
    intro y hy
    exact absurd hy (List.not_mem_nil y)
  | cons x xs ih =>
    unfold toNumericList at h
    cases hx : toNumericCell x with
    | none => rw [hx] at h; exact Option.noConfusion h
    | some y =>
      rw [hx] at h
      cases hxs : toNumericList xs with
      | none => rw [hxs] at h; exact Option.noConfusion h
      | some ys =>
        rw [hxs] at h
        cases h
        intro z hz
        rcases List.mem_cons.mp hz with rfl | hz
        · exact toNumericCell_float hx
        · exact ih hxs z hz

theorem toNumericList_of_float {ls : List Cell}
    (h : ∀ x ∈ ls, isFloatCell x = true) : toNumericList ls = some ls := by
  induction ls with
  | nil => rfl
  | cons x xs ih =>
    unfold toNumericList
    rw [toNumericCell_of_float (h x (List.mem_cons_self x xs)),
      ih (fun y hy => h y (List.mem_cons_of_mem x hy))]

theorem toNumericList_none_of_fail {ls : List Cell} {x : Cell}
    (hx : x ∈ ls) (h : toNumericCell x = none) : toNumericList ls = none := by
  induction ls with
  | nil => exact absurd hx (List.not_mem_nil x)
  | cons z zs ih =>
    unfold toNumericList
    rcases List.mem_cons.mp hx with rfl | hmem
    · rw [h]
    · rw [ih hmem]
      cases toNumericCell z <;> rfl

theorem toNumericList_some_of_ok {ls : List Cell}
    (h : ∀ x ∈ ls, (toNumericCell x).isSome) :
    ∃ conv, toNumericList ls = some conv := by
  induction ls with
  | nil => exact ⟨[], rfl⟩
  | cons x xs ih =>
    obtain ⟨y, hy⟩ := Option.isSome_iff_exists.mp (h x (List.mem_cons_self x xs))
    obtain ⟨ys, hys⟩ := ih (fun z hz => h z (List.mem_cons_of_mem x hz))
    refine ⟨y :: ys, ?_⟩
    unfold toNumericList
    rw [hy, hys]

/-! ## C3: per-chunk, per-column numeric conversion decision -/

/-- C3 counterexample: an all-null `object` column, in which every
non-null value trivially parses as a number, is NOT converted to a
numeric column — `clean_dataframe` leaves it as is because the
converted series would be entirely NA. -/
theorem column_conversion_counterexample :
    (∀ x ∈ (Col.mk "a" .object [Cell.null]).cells,
        isNA x = true ∨ (toNumericCell x).isSome = true) ∧
    convertColumn (Col.mk "a" .object [Cell.null]) = Col.mk "a" .object [Cell.null] ∧
    (convertColumn (Col.mk "a" .object [Cell.null])).dtype ≠ .numericKind := by
  refine ⟨?_, rfl, ?_⟩
  · intro x hx
    rcases List.mem_singleton.mp hx with rfl
    exact Or.inl rfl
  · intro h
    exact Dtype.noConfusion h

/-- C3 (amended).  For an `object`-dtype column of a chunk: if every
cell converts (every non-null value parses as a number) AND the column
is not entirely NA, the whole column is converted to numeric; if some
value fails to parse, or if the column is entirely NA, the column is
left exactly as it was.  The decision is per column (and hence per
chunk, `clean_dataframe` being applied to each chunk separately). -/
theorem column_conversion_decision (c : Col) (hdt : c.dtype = .object) :
    ((∀ x ∈ c.cells, (toNumericCell x).isSome) → c.cells.all isNA = false →
      (convertColumn c).dtype = .numericKind ∧
      toNumericList c.cells = some (convertColumn c).cells) ∧
    (∀ x ∈ c.cells, toNumericCell x = none → convertColumn c = c) ∧
    (c.cells.all isNA = true → convertColumn c = c) := by
  refine ⟨?_, ?_, ?_⟩
  · intro hok hNA
    obtain ⟨conv, hconv⟩ := toNumericList_some_of_ok hok
    have hcNA : conv.all isNA = false := by
      rw [toNumericList_all_isNA hconv, hNA]
    unfold convertColumn
    rw [if_pos hdt, hconv]
    simp [hcNA]
  · intro x hx hfail
    unfold convertColumn
    rw [if_pos hdt, toNumericList_none_of_fail hx hfail]
  · intro hNA
    unfold convertColumn
    rw [if_pos hdt]
    cases hconv : toNumericList c.cells with
    | none => rfl
    | some conv =>
      have hall : conv.all isNA = true := by rw [toNumericList_all_isNA hconv, hNA]
      simp [hall]

/-- C3 witness: a column `["7", None]` has every value convertible and
is not all-NA, so it is converted to a numeric column. -/
theorem column_conversion_decision_witness :
    (∀ x ∈ [Cell.str "7", Cell.null], (toNumericCell x).isSome) ∧
    ([Cell.str "7", Cell.null].all isNA = false) ∧
    (convertColumn ⟨"a", .object, [Cell.str "7", Cell.null]⟩).dtype = .numericKind :=
  ⟨by decide, by decide,
    ((column_conversion_decision ⟨"a", .object, [Cell.str "7", Cell.null]⟩ rfl).1
      (by decide) (by decide)).1⟩

/-! ## Column-level shape of `cleanCol` -/

theorem isNA_eq_false_of_float {x : Cell} (hf : isFloatCell x = true)
    (hn : isNanCell x = false) : isNA x = false := by
  cases x <;> simp_all [isFloatCell, isNanCell, isNA]

theorem any_isNanCell_map_nanToNull (ls : List Cell) :
    (ls.map nanToNull).any isNanCell = false := by
  apply any_eq_false_of
  intro x hx
  obtain ⟨y, _, rfl⟩ := List.mem_map.mp hx
  exact isNanCell_nanToNull y

theorem map_nanToNull_map_nanToNull (ls : List Cell) :
    (ls.map nanToNull).map nanToNull = ls.map nanToNull := by
  apply map_eq_self_of
  intro x hx
  obtain ⟨y, _, rfl⟩ := List.mem_map.mp hx
  exact nanToNull_eq_self (isNanCell_nanToNull y)

theorem whereNotNull_eq_self (c : Col) (hnan : ∀ x ∈ c.cells, isNanCell x = false)
    (hdt : c.dtype = .object ∨ ∀ x ∈ c.cells, isNA x = false) :
    whereNotNull c = c := by
  obtain ⟨name, dt, cells⟩ := c
  unfold whereNotNull
  simp only at hnan hdt ⊢
  rw [map_eq_self_of (fun x hx => naToNull_eq_self (hnan x hx))]
  rcases hdt with h | h
  · rw [h]
    simp
  · rw [any_eq_false_of h]
    simp

theorem cleanCol_object_none (name : String) (ls : List Cell)
    (h : toNumericList (ls.map replaceNAEmpty) = none) :
    cleanCol ⟨name, .object, ls⟩ =
      ⟨name, .object, (ls.map replaceNAEmpty).map nanToNull⟩ := by
  unfold cleanCol
  have hcc : convertColumn ⟨name, .object, ls.map replaceNAEmpty⟩ =
      ⟨name, .object, ls.map replaceNAEmpty⟩ := by
    unfold convertColumn
    simp [h]
  rw [hcc]
  have hr4 : replaceNanNone ⟨name, .object, ls.map replaceNAEmpty⟩ =
      ⟨name, .object, (ls.map replaceNAEmpty).map nanToNull⟩ := by
    unfold replaceNanNone
    simp
  rw [hr4]
  apply whereNotNull_eq_self
  · intro x hx
    obtain ⟨y, _, rfl⟩ := List.mem_map.mp hx
    exact isNanCell_nanToNull y
  · exact Or.inl rfl

theorem cleanCol_object_allNA (name : String) (ls conv : List Cell)
    (h : toNumericList (ls.map replaceNAEmpty) = some conv)
    (hall : conv.all isNA = true) :
    cleanCol ⟨name, .object, ls⟩ =
      ⟨name, .object, (ls.map replaceNAEmpty).map nanToNull⟩ := by
  unfold cleanCol
  have hcc : convertColumn ⟨name, .object, ls.map replaceNAEmpty⟩ =
      ⟨name, .object, ls.map replaceNAEmpty⟩ := by
    unfold convertColumn
    simp [h, hall]
  rw [hcc]
  have hr4 : replaceNanNone ⟨name, .object, ls.map replaceNAEmpty⟩ =
      ⟨name, .object, (ls.map replaceNAEmpty).map nanToNull⟩ := by
    unfold replaceNanNone
    simp
  rw [hr4]
  apply whereNotNull_eq_self
  · intro x hx
    obtain ⟨y, _, rfl⟩ := List.mem_map.mp hx
    exact isNanCell_nanToNull y
  · exact Or.inl rfl

theorem cleanCol_object_convert_nan (name : String) (ls conv : List Cell)
    (h : toNumericList (ls.map replaceNAEmpty) = some conv)
    (hall : conv.all isNA = false) (hnan : conv.any isNanCell = true) :
    cleanCol ⟨name, .object, ls⟩ = ⟨name, .object, conv.map nanToNull⟩ := by
  unfold cleanCol
  have hcc : convertColumn ⟨name, .object, ls.map replaceNAEmpty⟩ =
      ⟨name, .numericKind, conv⟩ := by
    unfold convertColumn
    simp [h, hall]
  rw [hcc]
  have hr4 : replaceNanNone ⟨name, .numericKind, conv⟩ =
      ⟨name, .object, conv.map nanToNull⟩ := by
    unfold replaceNanNone
    simp [hnan]
  rw [hr4]
  apply whereNotNull_eq_self
  · intro x hx
    obtain ⟨y, _, rfl⟩ := List.mem_map.mp hx
    exact isNanCell_nanToNull y
  · exact Or.inl rfl

theorem cleanCol_object_convert_clean (name : String) (ls conv : List Cell)
    (h : toNumericList (ls.map replaceNAEmpty) = some conv)
    (hall : conv.all isNA = false) (hnan : conv.any isNanCell = false) :
    cleanCol ⟨name, .object, ls⟩ = ⟨name, .numericKind, conv⟩ := by
  unfold cleanCol
  have hcc : convertColumn ⟨name, .object, ls.map replaceNAEmpty⟩ =
      ⟨name, .numericKind, conv⟩ := by
    unfold convertColumn
    simp [h, hall]
  rw [hcc]
  have hnn : ∀ x ∈ conv, isNanCell x = false :=
    fun x hx => Bool.eq_false_iff.mpr (List.any_eq_false.mp hnan x hx)
  have hr4 : replaceNanNone ⟨name, .numericKind, conv⟩ = ⟨name, .numericKind, conv⟩ := by
    unfold replaceNanNone
    simp only
    rw [hnan, map_eq_self_of (fun x hx => nanToNull_eq_self (hnn x hx))]
    simp
  rw [hr4]
  apply whereNotNull_eq_self _ hnn
  refine Or.inr (fun x hx => ?_)
  exact isNA_eq_false_of_float (toNumericList_float h x hx) (hnn x hx)

theorem cleanCol_numeric_keep (name : String) (cells : List Cell)
    (hf : ∀ x ∈ cells, isFloatCell x = true) (hnan : cells.any isNanCell = false) :
    cleanCol ⟨name, .numericKind, cells⟩ = ⟨name, .numericKind, cells⟩ := by
  unfold cleanCol
  simp only
  rw [map_eq_self_of (fun x hx => replaceNAEmpty_float (hf x hx))]
  have hcc : convertColumn ⟨name, .numericKind, cells⟩ = ⟨name, .numericKind, cells⟩ := by
    unfold convertColumn
    simp
  rw [hcc]
  have hnn : ∀ x ∈ cells, isNanCell x = false :=
    fun x hx => Bool.eq_false_iff.mpr (List.any_eq_false.mp hnan x hx)
  have hr4 : replaceNanNone ⟨name, .numericKind, cells⟩ = ⟨name, .numericKind, cells⟩ := by
    unfold replaceNanNone
    simp only
    rw [hnan, map_eq_self_of (fun x hx => nanToNull_eq_self (hnn x hx))]
    simp
  rw [hr4]
  exact whereNotNull_eq_self _ hnn
    (Or.inr (fun x hx => isNA_eq_false_of_float (hf x hx) (hnn x hx)))

theorem cleanCol_numeric_flip (name : String) (cells : List Cell)
    (hf : ∀ x ∈ cells, isFloatCell x = true) (hnan : cells.any isNanCell = true) :
    cleanCol ⟨name, .numericKind, cells⟩ = ⟨name, .object, cells.map nanToNull⟩ := by
  unfold cleanCol
  simp only
  rw [map_eq_self_of (fun x hx => replaceNAEmpty_float (hf x hx))]
  have hcc : convertColumn ⟨name, .numericKind, cells⟩ = ⟨name, .numericKind, cells⟩ := by
    unfold convertColumn
    simp
  rw [hcc]
  have hr4 : replaceNanNone ⟨name, .numericKind, cells⟩ =
      ⟨name, .object, cells.map nanToNull⟩ := by
    unfold replaceNanNone
    simp [hnan]
  rw [hr4]
  apply whereNotNull_eq_self
  · intro x hx
    obtain ⟨y, _, rfl⟩ := List.mem_map.mp hx
    exact isNanCell_nanToNull y
  · exact Or.inl rfl

/-! ## `cleanCol` is a closure on well-formed columns -/

theorem cleanCol_fixpoint (c : Col)
    (hwf : c.dtype = .numericKind → ∀ x ∈ c.cells, isFloatCell x = true) :
    cleanCol (cleanCol c) = cleanCol c := by
  obtain ⟨name, dt, cells⟩ := c
  cases dt with
  | numericKind =>
    have hf : ∀ x ∈ cells, isFloatCell x = true := hwf rfl
    cases hnan : cells.any isNanCell with
    | false =>
      rw [cleanCol_numeric_keep name cells hf hnan,
        cleanCol_numeric_keep name cells hf hnan]
    | true =>
      rw [cleanCol_numeric_flip name cells hf hnan]
      have hid : (cells.map nanToNull).map replaceNAEmpty = cells.map nanToNull := by
        apply map_eq_self_of
        intro x hx
        obtain ⟨y, hy, rfl⟩ := List.mem_map.mp hx
        exact replaceNAEmpty_nanToNull (replaceNAEmpty_float (hf y hy))
      have hconv : toNumericList ((cells.map nanToNull).map replaceNAEmpty) = some cells := by
        rw [hid, toNumericList_map_nanToNull, toNumericList_of_float hf]
      cases hall : cells.all isNA with
      | true =>
        rw [cleanCol_object_allNA name (cells.map nanToNull) cells hconv hall, hid,
          map_nanToNull_map_nanToNull]
      | false =>
        rw [cleanCol_object_convert_nan name (cells.map nanToNull) cells hconv hall hnan]
  | object =>
    cases hconv : toNumericList (cells.map replaceNAEmpty) with
    | none =>
      rw [cleanCol_object_none name cells hconv]
      have hid1 : ((cells.map replaceNAEmpty).map nanToNull).map replaceNAEmpty =
          (cells.map replaceNAEmpty).map nanToNull := by
        apply map_eq_self_of
        intro x hx
        obtain ⟨y, hy, rfl⟩ := List.mem_map.mp hx
        obtain ⟨z, hz, rfl⟩ := List.mem_map.mp hy
        exact replaceNAEmpty_nanToNull (replaceNAEmpty_idem z)
      rw [cleanCol_object_none name ((cells.map replaceNAEmpty).map nanToNull)
        (by rw [hid1, toNumericList_map_nanToNull, hconv]), hid1,
        map_nanToNull_map_nanToNull]
    | some conv =>
      have hid1 : ((cells.map replaceNAEmpty).map nanToNull).map replaceNAEmpty =
          (cells.map replaceNAEmpty).map nanToNull := by
        apply map_eq_self_of
        intro x hx
        obtain ⟨y, hy, rfl⟩ := List.mem_map.mp hx
        obtain ⟨z, hz, rfl⟩ := List.mem_map.mp hy
        exact replaceNAEmpty_nanToNull (replaceNAEmpty_idem z)
      cases hall : conv.all isNA with
      | true =>
        rw [cleanCol_object_allNA name cells conv hconv hall]
        rw [cleanCol_object_allNA name ((cells.map replaceNAEmpty).map nanToNull) conv
          (by rw [hid1, toNumericList_map_nanToNull, hconv]) hall, hid1,
          map_nanToNull_map_nanToNull]
      | false =>
        have hfl : ∀ x ∈ conv, isFloatCell x = true := toNumericList_float hconv
        cases hnan : conv.any isNanCell with
        | true =>
          rw [cleanCol_object_convert_nan name cells conv hconv hall hnan]
          have hid2 : (conv.map nanToNull).map replaceNAEmpty = conv.map nanToNull := by
            apply map_eq_self_of
            intro x hx
            obtain ⟨y, hy, rfl⟩ := List.mem_map.mp hx
            exact replaceNAEmpty_nanToNull (replaceNAEmpty_float (hfl y hy))
          rw [cleanCol_object_convert_nan name (conv.map nanToNull) conv
            (by rw [hid2, toNumericList_map_nanToNull, toNumericList_of_float hfl])
            hall hnan]
        | false =>
          rw [cleanCol_object_convert_clean name cells conv hconv hall hnan]
          exact cleanCol_numeric_keep name conv hfl hnan

/-! ## Projection is a closure, and C4: cleaning is idempotent -/

theorem find?_filterMap_of_name (g : String → Option Col)
    (hg : ∀ c x, g c = some x → x.name = c) :
    ∀ (cs : List String) (c : String), c ∈ cs →
      (cs.filterMap g).find? (fun col => col.name == c) = g c := by
  intro cs
  induction cs with
  | nil =>
    intro c hc
    exact absurd hc (List.not_mem_nil c)
  | cons c' cs ih =>
    intro c hc
    cases hgc' : g c' with
    | none =>
      rw [List.filterMap_cons_none hgc']
      rcases List.mem_cons.mp hc with rfl | hmem
      · rw [hgc', List.find?_eq_none]
        intro x hx hbeq
        obtain ⟨c'', _, hgc''⟩ := List.mem_filterMap.mp hx
        have hxn := hg c'' x hgc''
        have hxc : x.name = c := by simpa using hbeq
        rw [hxn] at hxc
        rw [hxc] at hgc''
        rw [hgc''] at hgc'
        exact Option.noConfusion hgc'
      · exact ih c hmem
    | some x =>
      rw [List.filterMap_cons_some hgc']
      have hxn := hg c' x hgc'
      by_cases hcc : c = c'
      · subst hcc
        rw [hgc']
        exact List.find?_cons_of_pos _ (by simp [hxn])
      · rw [List.find?_cons_of_neg _ (by simp [hxn]; exact fun h => hcc h.symm)]
        rcases List.mem_cons.mp hc with rfl | hmem
        · exact absurd rfl hcc
        · exact ih c hmem

theorem selectColumns_map_cleanCol_fix (dfcols : List Col) (columns : List String) :
    selectColumns ((selectColumns dfcols columns).map cleanCol) columns =
      (selectColumns dfcols columns).map cleanCol := by
  unfold selectColumns
  rw [List.map_filterMap]
  set g := fun c => Option.map cleanCol (dfcols.find? (fun col => col.name == c)) with hgdef
  have hg : ∀ c x, g c = some x → x.name = c := by
    intro c x hgc
    rw [hgdef] at hgc
    simp only [Option.map_eq_some'] at hgc
    obtain ⟨y, hy, rfl⟩ := hgc
    have : (y.name == c) = true := @List.find?_some _ (fun col => col.name == c) y dfcols hy
    rw [cleanCol_name]
    simpa using this
  apply List.filterMap_congr
  intro c hc
  exact find?_filterMap_of_name g hg columns c hc

/-- A chunk is well formed when every numeric-dtype column holds only
float cells (finite numbers, NaN, ±Infinity) — exactly what a pandas
numeric column can represent. -/
def WellFormed (df : Df) : Prop :=
  ∀ c ∈ df.cols, c.dtype = .numericKind → ∀ x ∈ c.cells, isFloatCell x = true

/-- C4.  Cleaning is idempotent: applying `clean_dataframe` with the
same expected-column list to its own output changes nothing (hence the
records are also unchanged). -/
theorem clean_dataframe_idempotent (df : Df) (columns : List String)
    (hwf : WellFormed df) :
    clean_dataframe (clean_dataframe df columns) columns =
      clean_dataframe df columns := by
  unfold clean_dataframe
  simp only
  rw [selectColumns_map_cleanCol_fix df.cols columns, List.map_map]
  have hmap : (selectColumns df.cols columns).map (cleanCol ∘ cleanCol) =
      (selectColumns df.cols columns).map cleanCol :=
    List.map_congr_left (fun c hc =>
      cleanCol_fixpoint c (hwf c (mem_selectColumns hc).2))
  rw [hmap]

def c4df : Df :=
  ⟨2, [⟨"a", .object, [Cell.str "NA", Cell.str "3"]⟩,
       ⟨"b", .object, [Cell.str "x", Cell.str ""]⟩]⟩

/-- C4 witness: a concrete two-column chunk (one numeric-coercible
column with an NA token, one textual column) is well formed, and
cleaning it twice equals cleaning it once. -/
theorem clean_dataframe_idempotent_witness :
    WellFormed c4df ∧
    clean_dataframe (clean_dataframe c4df ["a", "b"]) ["a", "b"] =
      clean_dataframe c4df ["a", "b"] :=
  ⟨by intro c hc hdt x hx; fin_cases hc <;> exact Dtype.noConfusion hdt,
    clean_dataframe_idempotent c4df ["a", "b"]
      (by intro c hc hdt x hx; fin_cases hc <;> exact Dtype.noConfusion hdt)⟩

end CsvImport
